import Mathlib

/-!
Verification of the recentrifuge generic/Kraken output reader
(`recentrifuge/generic.py`) against its natural-language specification.

The file shallowly embeds the Python source: strings are lists of
characters, Python `int` is `Int`, Python `float` scores are modelled
exactly as rationals `ℚ`, fallible code returns `Except`/`Option`, and
the stateful scanning loop of `read_generic_output` becomes explicit
state passing over a `RState` record.
-/

set_option autoImplicit false

instance instDecEqExcept {ε α : Type} [DecidableEq ε] [DecidableEq α] :
    DecidableEq (Except ε α) := fun x y =>
  match x, y with
  | Except.ok a, Except.ok b =>
    if h : a = b then Decidable.isTrue (congrArg Except.ok h)
    else Decidable.isFalse (fun hc => h (Except.ok.inj hc))
  | Except.error a, Except.error b =>
    if h : a = b then Decidable.isTrue (congrArg Except.error h)
    else Decidable.isFalse (fun hc => h (Except.error.inj hc))
  | Except.ok _, Except.error _ => Decidable.isFalse (fun hc => Except.noConfusion hc)
  | Except.error _, Except.ok _ => Decidable.isFalse (fun hc => Except.noConfusion hc)

namespace Recentrifuge

/-! ## Python string primitives -/

/-- Whitespace test matching Python's `str.strip()`/`str.split()` default. -/
def isWs (c : Char) : Bool :=
  c == ' ' || c == '\t' || c == '\n' || c == '\r' || c == '\x0b' || c == '\x0c'

/-- Python `s.split(sep)` for a one-character separator: splitting an empty
string gives `[""]`, and empty fields are kept. -/
def pySplitChar (sep : Char) : List Char → List (List Char)
  | [] => [[]]
  | c :: cs =>
    match pySplitChar sep cs with
    | [] => [[]]
    | g :: gs => if c = sep then [] :: g :: gs else (c :: g) :: gs

/-- Split at every character satisfying `p`, keeping empty fields. -/
def pySplitP (p : Char → Bool) : List Char → List (List Char)
  | [] => [[]]
  | c :: cs =>
    match pySplitP p cs with
    | [] => [[]]
    | g :: gs => if p c then [] :: g :: gs else (c :: g) :: gs

/-- Python `s.split()` with no argument: split on whitespace runs and drop
empty fields. -/
def pySplitWs (cs : List Char) : List (List Char) :=
  (pySplitP isWs cs).filter (fun g => ¬ g.isEmpty)

/-- Python `s.strip()`: remove leading and trailing whitespace. -/
def pyStrip (cs : List Char) : List Char :=
  ((cs.dropWhile isWs).reverse.dropWhile isWs).reverse

/-- Python `s.upper()` (ASCII is all that the format specifiers use). -/
def pyUpper (cs : List Char) : List Char := cs.map Char.toUpper

/-- Digit run to number (accumulator form). -/
def digitsToNat : List Char → Nat → Nat
  | [], acc => acc
  | c :: cs, acc => digitsToNat cs (acc * 10 + (c.toNat - '0'.toNat))

/-- Python `int(s)`: optional surrounding whitespace, optional sign, then a
nonempty digit run; anything else raises `ValueError`, modelled as `none`. -/
def pyInt (cs : List Char) : Option Int :=
  let s := pyStrip cs
  let core : Int × List Char :=
    match s with
    | '-' :: rest => (-1, rest)
    | '+' :: rest => (1, rest)
    | _ => (1, s)
  if core.2.isEmpty then none
  else if core.2.all Char.isDigit then some (core.1 * (digitsToNat core.2 0 : Int))
  else none

/-! ## `GenericType` and `GenericFormat` (format-descriptor construction)

`GenericFormat.__init__` parses a comma-separated `KEY:VALUE` specifier.
Every `except` clause in the source re-raises after printing — except the
one around the `GenericType` lookup, which only prints; that control flow
is embedded exactly (an unknown subtype leaves `typ` unassigned, modelled
as `none`, and construction continues). -/

inductive GenericType
  | CSV
  | TSV
deriving DecidableEq

/-- Enum lookup `GenericType[name]`: lookup by member name, `none` on `KeyError`. -/
def genericTypeOfName (s : List Char) : Option GenericType :=
  if s = "CSV".data then some GenericType.CSV
  else if s = "TSV".data then some GenericType.TSV
  else none

/-- The exceptions `GenericFormat.__init__` can let escape. -/
inductive GFError
  | indexError
  | missingTYP
  | missingTID
  | badTID
  | missingLEN
  | badLEN
  | missingSCO
  | badSCO
  | missingUNC
deriving DecidableEq

/-- The attribute set of a constructed `GenericFormat`.  `typ` is an
`Option` because the source can finish construction without ever
assigning `self.typ` (unknown subtype name). -/
structure GenericFormat where
  typ : Option GenericType
  tid : Int
  len : Int
  sco : Int
  unc : List Char
deriving DecidableEq

/-- Lookup in an association list where a later binding overwrites an
earlier one, as in a Python dict comprehension. -/
def lookupLast (m : List (List Char × List Char)) (k : List Char) : Option (List Char) :=
  match m with
  | [] => none
  | (k', v) :: rest =>
    match lookupLast rest k with
    | some r => some r
    | none => if k' = k then some v else none

/-- Build the `fmt` dict pairs: each block is split at `:`; a block with no
colon raises an uncaught `IndexError` (`pair.split(':')[1]`). -/
def parseFmtPairs : List (List Char) → Except GFError (List (List Char × List Char))
  | [] => Except.ok []
  | b :: bs =>
    match pySplitChar ':' b with
    | k :: v :: _ =>
      match parseFmtPairs bs with
      | Except.error e => Except.error e
      | Except.ok rest => Except.ok ((pyStrip k, pyStrip v) :: rest)
    | _ => Except.error GFError.indexError

/-- Embedding of `GenericFormat.__init__` (generic.py lines 30-78). -/
def GenericFormat.init (format : String) : Except GFError GenericFormat :=
  let blocks := (pySplitChar ',' format.data).map pyStrip
  match parseFmtPairs blocks with
  | Except.error e => Except.error e
  | Except.ok fmt =>
    match lookupLast fmt "TYP".data with
    | none => Except.error GFError.missingTYP
    | some typS =>
      -- the source prints an error on an unknown TYPe but does not
      -- re-raise, so `self.typ` is simply never assigned
      let typ := genericTypeOfName (pyUpper typS)
      match lookupLast fmt "TID".data with
      | none => Except.error GFError.missingTID
      | some tidS =>
        match pyInt tidS with
        | none => Except.error GFError.badTID
        | some tid =>
          match lookupLast fmt "LEN".data with
          | none => Except.error GFError.missingLEN
          | some lenS =>
            match pyInt lenS with
            | none => Except.error GFError.badLEN
            | some len =>
              match lookupLast fmt "SCO".data with
              | none => Except.error GFError.missingSCO
              | some scoS =>
                match pyInt scoS with
                | none => Except.error GFError.badSCO
                | some sco =>
                  match lookupLast fmt "UNC".data with
                  | none => Except.error GFError.missingUNC
                  | some uncS => Except.ok ⟨typ, tid, len, sco, uncS⟩

/-! ## Ambient names of the reader

`read_generic_output` refers to three names that the excerpt does not
define: `UNCLASSIFIED`, `K_MER_SIZE` and `scoring`. -/

/-- Modelled from the spec: the unclassified marker the classification
flag field is compared against; the spec's end-to-end scenario tags the
unclassified read with flag `U`. -/
def UNCLASSIFIED : List Char := ['U']

/-- Modelled from the spec: the "fixed k-mer-size constant" added to the
own-taxon k-mer count to form `shel`; the excerpt leaves its value to an
enclosing scope, so a fixed representative value is used (no claim
depends on the value). -/
def K_MER_SIZE : Int := 35

/-- Modelled from the spec: the five scoring policies of the Scoring
Selector (`SHEL`, `KRAKEN`-native, `LENGTH`, `LOG-LENGTH`, `NORMALIZED`).
The `scoring` policy value is read by the reader from an enclosing scope;
it is made an explicit parameter here, as the spec's design notes direct. -/
inductive Scoring
  | SHEL
  | KRAKEN
  | LENGTH
  | LOGLENGTH
  | NORMA
deriving DecidableEq

/-! ## The k-mer mapping `Counter` -/

/-- Python `mappings[k] += v` on a `collections.Counter` represented as an
insertion-ordered association list: a missing key defaults to 0. -/
def counterAdd (m : List (List Char × Int)) (k : List Char) (v : Int) :
    List (List Char × Int) :=
  match m with
  | [] => [(k, v)]
  | (k', v') :: rest =>
    if k' = k then (k', v' + v) :: rest else (k', v') :: counterAdd rest k v

/-- The `Counter` built by the `for pair in maps` loop. -/
def mappingsOf (pairs : List (List Char × Int)) : List (List Char × Int) :=
  pairs.foldl (fun m p => counterAdd m p.1 p.2) []

/-- Counter access `mappings[k]` (0 for a missing key). -/
def counterGet (m : List (List Char × Int)) (k : List Char) : Int :=
  match m with
  | [] => 0
  | (k', v) :: rest => if k' = k then v else counterGet rest k

/-- Python `sum(mappings.values())`. -/
def counterTotal (m : List (List Char × Int)) : Int :=
  (m.map Prod.snd).sum

/-- Line 151, `shel = Score(mappings[tid] + K_MER_SIZE)`; an `int` value
in the source. -/
def shelOf (pairs : List (List Char × Int)) (tid : List Char) : Int :=
  counterGet (mappingsOf pairs) tid + K_MER_SIZE

/-- Lines 152-153, `score = Score(mappings[tid] / sum(mappings.values()) * 100)`
(lines 152-153); only evaluated when the total is nonzero. -/
def scoreOf (pairs : List (List Char × Int)) (tid : List Char) : ℚ :=
  (counterGet (mappingsOf pairs) tid : ℚ) / (counterTotal (mappingsOf pairs) : ℚ) * 100

/-! ## Per-line parsing -/

/-- Failures inside the `for pair in maps` loop: `couple[1]` on a pair
with no colon raises `IndexError` (uncaught), `int(couple[1])` on a
non-numeric count raises `ValueError` (caught, record skipped). -/
inductive MapErr
  | indexErr
  | valueErr
deriving DecidableEq

/-- Parse the `taxonId:count` pairs in list order, stopping at the first
failing pair as the Python loop does. -/
def parseMapsPairs : List (List Char) → Except MapErr (List (List Char × Int))
  | [] => Except.ok []
  | pair :: rest =>
    match pySplitChar ':' pair with
    | k :: v :: _ =>
      match pyInt v with
      | none => Except.error MapErr.valueErr
      | some n =>
        match parseMapsPairs rest with
        | Except.error e => Except.error e
        | Except.ok r => Except.ok ((k, n) :: r)
    | _ => Except.error MapErr.indexErr

/-- Line 134, `length = sum(map(int, _length.split(sep)))` with bar separator. -/
def parseLength (lenS : List Char) : Option Int :=
  match (pySplitChar '|' lenS).mapM pyInt with
  | none => none
  | some segs => some segs.sum

/-- The literal separator token discarded from the mapping list. -/
def SEP_TOKEN : List Char := "|:|".data

/-- What processing one data line does before the state is touched.
`errNoCount` covers the `ValueError`s raised before `num_read += 1`
(bad field count, bad length field); `errCounted` the `ValueError` raised
after it (bad mapping count); the two `abort` outcomes are the exceptions
the `except ValueError` clauses do not catch. -/
inductive LineOutcome
  | errNoCount
  | errCounted (length : Int)
  | uncl (length : Int)
  | clas (length : Int) (tid : List Char) (shel : Int) (score : ℚ)
  | abortZeroDiv
  | abortIndex
deriving DecidableEq

/-- Lines 133-153 of the loop body, after the 5-field unpack. -/
def classifyFields (cls tidS lenS mapsS : List Char) : LineOutcome :=
  match parseLength lenS with
  | none => LineOutcome.errNoCount
  | some len =>
    if cls = UNCLASSIFIED then LineOutcome.uncl len
    else
      let maps := (pySplitWs mapsS).erase SEP_TOKEN
      match parseMapsPairs maps with
      | Except.error MapErr.indexErr => LineOutcome.abortIndex
      | Except.error MapErr.valueErr => LineOutcome.errCounted len
      | Except.ok pairs =>
        if counterTotal (mappingsOf pairs) = 0 then LineOutcome.abortZeroDiv
        else LineOutcome.clas len tidS (shelOf pairs tidS) (scoreOf pairs tidS)

/-- One raw line: strip, split at tabs, unpack exactly 5 fields
(lines 125-132), then hand the fields over. -/
def lineOutcome (raw : List Char) : LineOutcome :=
  match pySplitChar '\t' (pyStrip raw) with
  | [c, _label, t, l, m] => classifyFields c t l m
  | _ => LineOutcome.errNoCount

/-- A data line that takes one of the two caught-`ValueError` paths. -/
def isErrLine (raw : List Char) : Bool :=
  match lineOutcome raw with
  | LineOutcome.errNoCount => true
  | LineOutcome.errCounted _ => true
  | _ => false

/-! ## The scanning state -/

/-- The mutable locals of `read_generic_output` (lines 103-109). -/
structure RState where
  all_scores : List (List Char × List ℚ)
  all_kmerel : List (List Char × List ℚ)
  all_length : List (List Char × List Int)
  num_read : Nat
  nt_read : Int
  num_uncl : Nat
  error_read : Int
deriving DecidableEq, Inhabited

/-- The state before the first data line. -/
def initState : RState := ⟨[], [], [], 0, 0, 0, -1⟩

/-- The try-append / except-`KeyError`-insert discipline used for the
three per-taxon dicts (lines 167-178). -/
def upsert {α : Type} (m : List (List Char × List α)) (k : List Char) (v : α) :
    List (List Char × List α) :=
  match m with
  | [] => [(k, [v])]
  | (k', l) :: rest =>
    if k' = k then (k', l ++ [v]) :: rest else (k', l) :: upsert rest k v

/-- First-match association lookup (Python dict access for the per-taxon
dicts, whose keys are unique). -/
def lookupA {α : Type} (m : List (List Char × α)) (k : List Char) : Option α :=
  match m with
  | [] => none
  | (k', v) :: rest => if k' = k then some v else lookupA rest k

/-- Length of the list stored under `k` (0 when `k` is absent). -/
def lenOf {α : Type} (m : List (List Char × List α)) (k : List Char) : Nat :=
  match lookupA m k with
  | some l => l.length
  | none => 0

/-- Whether `k` is a key of the association list. -/
def hasKey {α : Type} (m : List (List Char × α)) (k : List Char) : Bool :=
  (lookupA m k).isSome

/-- The exceptions that escape the per-line `try` blocks and abort the
whole scan. -/
inductive Abort
  | zeroDivision
  | indexError
  | keyError
deriving DecidableEq

/-- The minimum-score filter (lines 160-166): keep unless the
policy-relevant metric is below the configured threshold. -/
def keepRecord (scoring : Scoring) (minscore : Option ℚ) (shel : Int) (score : ℚ) : Bool :=
  match minscore with
  | none => true
  | some t =>
    if scoring = Scoring.KRAKEN then decide (t ≤ score) else decide (t ≤ (shel : ℚ))

/-- One iteration of the `for raw_line in file` loop as a state
transformer. -/
def step (scoring : Scoring) (minscore : Option ℚ) (s : RState) (raw : List Char) :
    Except Abort RState :=
  match lineOutcome raw with
  | LineOutcome.errNoCount =>
    Except.ok { s with error_read := (s.num_read : Int) + 1 }
  | LineOutcome.errCounted len =>
    Except.ok { s with num_read := s.num_read + 1, nt_read := s.nt_read + len,
                       error_read := (s.num_read : Int) + 2 }
  | LineOutcome.uncl len =>
    Except.ok { s with num_read := s.num_read + 1, nt_read := s.nt_read + len,
                       num_uncl := s.num_uncl + 1 }
  | LineOutcome.abortZeroDiv => Except.error Abort.zeroDivision
  | LineOutcome.abortIndex => Except.error Abort.indexError
  | LineOutcome.clas len tid shel score =>
    if keepRecord scoring minscore shel score then
      Except.ok { s with num_read := s.num_read + 1, nt_read := s.nt_read + len,
                         all_scores := upsert s.all_scores tid (shel : ℚ),
                         all_kmerel := upsert s.all_kmerel tid score,
                         all_length := upsert s.all_length tid len }
    else
      Except.ok { s with num_read := s.num_read + 1, nt_read := s.nt_read + len }

/-- The whole data-line loop. -/
def scanLines (scoring : Scoring) (minscore : Option ℚ) :
    RState → List (List Char) → Except Abort RState
  | s, [] => Except.ok s
  | s, l :: ls =>
    match step scoring minscore s l with
    | Except.error e => Except.error e
    | Except.ok s' => scanLines scoring minscore s' ls

/-- The state after a completed (non-aborted) scan of the data lines. -/
def scanState (scoring : Scoring) (minscore : Option ℚ) (lines : List (List Char)) :
    Option RState :=
  (scanLines scoring minscore initState lines).toOption

/-- Line 189, `filt_seqs = sum([len(scores) for scores in all_scores.values()])`
(line 189). -/
def filtSeqs (s : RState) : Nat :=
  (s.all_scores.map (fun p => p.2.length)).sum

/-- Lines 183-184, `counts = Counter({tid: len(all_scores[tid]) for tid in all_scores})`
(lines 183-184). -/
def countsOf (s : RState) : List (List Char × Nat) :=
  s.all_scores.map (fun p => (p.1, p.2.length))

/-- The truncated-file test `error_read == num_read + 1` (line 181). -/
def truncatedFlag (s : RState) : Bool :=
  s.error_read == (s.num_read : Int) + 1

/-! ## The whole reader -/

inductive ReadErr
  | badHeader
  | aborted (e : Abort)
  | noReads
  | noPassed
deriving DecidableEq

structure ReadResult where
  state : RState
  truncated : Bool
  counts : List (List Char × Nat)
deriving DecidableEq

/-- The header fields: `file.readline().split('\t')` (line 114). -/
def headerFields (lines : List String) : List (List Char) :=
  pySplitChar '\t' ((lines.headD "").data)

/-- Embedding of `read_generic_output` (lines 85-214): header check, data
loop, then the empty-result checks; the statistics and log text are
presentation and are not part of the result. -/
def read_generic_output (lines : List String) (scoring : Scoring) (minscore : Option ℚ) :
    Except ReadErr ReadResult :=
  if (headerFields lines).length ≠ 5 then Except.error ReadErr.badHeader
  else
    match scanLines scoring minscore initState (lines.tail.map String.data) with
    | Except.error e => Except.error (ReadErr.aborted e)
    | Except.ok s =>
      if s.num_read = 0 then Except.error ReadErr.noReads
      else if filtSeqs s = 0 then Except.error ReadErr.noPassed
      else Except.ok ⟨s, truncatedFlag s, countsOf s⟩

/-- The function `scanState` guarded by the header check: the state the summarizer
checks run on, when they run at all. -/
def scanOf (lines : List String) (scoring : Scoring) (minscore : Option ℚ) :
    Option RState :=
  if (headerFields lines).length = 5 then
    scanState scoring minscore (lines.tail.map String.data)
  else none

/-! ## The `NORMALIZED` score selection -/

/-- Python `statistics.mean` on an exact list of rationals. -/
def meanQ (l : List ℚ) : ℚ := l.sum / (l.length : ℚ)

/-- One entry of the `NORMA` dict comprehension
`{tid: Score(scores[tid] / lengths[tid] * 100) for tid in scores}`:
a missing length key raises `KeyError`, a zero mean length raises
`ZeroDivisionError`. -/
def normaEntry (lengths : List (List Char × ℚ)) (p : List Char × ℚ) :
    Except Abort (List Char × ℚ) :=
  match lookupA lengths p.1 with
  | none => Except.error Abort.keyError
  | some L =>
    if L = 0 then Except.error Abort.zeroDivision
    else Except.ok (p.1, p.2 / L * 100)

/-- The `NORMA` dict comprehension: one entry per `scores` key, in order,
stopping at the first raised exception. -/
def normaMapM (lengths : List (List Char × ℚ)) :
    List (List Char × ℚ) → Except Abort (List (List Char × ℚ))
  | [] => Except.ok []
  | p :: rest =>
    match normaEntry lengths p with
    | Except.error e => Except.error e
    | Except.ok b =>
      match normaMapM lengths rest with
      | Except.error e => Except.error e
      | Except.ok bs => Except.ok (b :: bs)

/-- The `Scoring.NORMA` branch of the score-selection dispatch
(lines 226-232): `scores` and `lengths` are the per-taxon mean dicts, and
the final dict divides them pointwise. -/
def outScoresNorma (s : RState) : Except Abort (List (List Char × ℚ)) :=
  normaMapM (s.all_length.map (fun p => (p.1, meanQ (p.2.map (fun n => (n : ℚ))))))
    (s.all_scores.map (fun p => (p.1, meanQ p.2)))

/-! ## Helper lemmas -/

theorem opt_eq_some_getD {α : Type} (o : Option α) (d : α) (h : o.isSome = true) :
    o = some (o.getD d) := by
  cases o with
  | none => simp at h
  | some a => rfl

theorem except_eq_ok_getD {ε α : Type} (e : Except ε α) (d : α) (h : e.isOk = true) :
    e = Except.ok (e.toOption.getD d) := by
  cases e with
  | error a => exact Bool.noConfusion h
  | ok a => rfl

theorem lookupA_upsert_self {α : Type} (m : List (List Char × List α)) (k : List Char)
    (v : α) : lookupA (upsert m k v) k = some ((lookupA m k).getD [] ++ [v]) := by
  induction m with
  | nil => simp [upsert, lookupA]
  | cons p rest ih =>
    obtain ⟨k', l⟩ := p
    by_cases hk : k' = k
    · simp [upsert, lookupA, hk]
    · simp [upsert, lookupA, hk, ih]

theorem lookupA_upsert_ne {α : Type} (m : List (List Char × List α)) (k k' : List Char)
    (v : α) (h : k' ≠ k) : lookupA (upsert m k v) k' = lookupA m k' := by
  induction m with
  | nil =>
    simp only [upsert, lookupA]
    rw [if_neg (fun hc => h hc.symm)]
  | cons p rest ih =>
    obtain ⟨k0, l⟩ := p
    simp only [upsert]
    by_cases hk : k0 = k
    · rw [if_pos hk]
      simp only [lookupA]
      rw [if_neg (fun hc => h (hc.symm.trans hk)), if_neg (fun hc => h (hc.symm.trans hk))]
    · rw [if_neg hk]
      simp only [lookupA]
      by_cases hk' : k0 = k'
      · rw [if_pos hk', if_pos hk']
      · rw [if_neg hk', if_neg hk', ih]

theorem lenOf_upsert_self {α : Type} (m : List (List Char × List α)) (k : List Char)
    (v : α) : lenOf (upsert m k v) k = lenOf m k + 1 := by
  unfold lenOf
  rw [lookupA_upsert_self]
  cases h : lookupA m k <;> simp [h]

theorem lenOf_upsert_ne {α : Type} (m : List (List Char × List α)) (k k' : List Char)
    (v : α) (h : k' ≠ k) : lenOf (upsert m k v) k' = lenOf m k' := by
  unfold lenOf
  rw [lookupA_upsert_ne m k k' v h]

theorem hasKey_upsert_self {α : Type} (m : List (List Char × List α)) (k : List Char)
    (v : α) : hasKey (upsert m k v) k = true := by
  unfold hasKey
  rw [lookupA_upsert_self]
  rfl

theorem hasKey_upsert_ne {α : Type} (m : List (List Char × List α)) (k k' : List Char)
    (v : α) (h : k' ≠ k) : hasKey (upsert m k v) k' = hasKey m k' := by
  unfold hasKey
  rw [lookupA_upsert_ne m k k' v h]

theorem lookupA_map_val {α β : Type} (m : List (List Char × α)) (g : α → β)
    (k : List Char) :
    lookupA (m.map (fun p => (p.1, g p.2))) k = (lookupA m k).map g := by
  induction m with
  | nil => simp [lookupA]
  | cons p rest ih =>
    by_cases hk : p.1 = k
    · simp [lookupA, hk]
    · simp [lookupA, hk, ih]

theorem counterGet_counterAdd (m : List (List Char × Int)) (k k' : List Char) (v : Int) :
    counterGet (counterAdd m k v) k' =
      counterGet m k' + (if k = k' then v else 0) := by
  induction m with
  | nil =>
    simp only [counterAdd, counterGet]
    omega
  | cons p rest ih =>
    obtain ⟨k0, v0⟩ := p
    simp only [counterAdd]
    by_cases h0 : k0 = k
    · rw [if_pos h0]
      simp only [counterGet]
      by_cases hk : k0 = k'
      · rw [if_pos hk, if_pos hk, if_pos (h0.symm.trans hk)]
      · rw [if_neg hk, if_neg hk, if_neg (fun hc => hk (h0.trans hc))]
        omega
    · rw [if_neg h0]
      simp only [counterGet]
      by_cases hk : k0 = k'
      · rw [if_pos hk, if_pos hk, if_neg (fun hc => h0 (hk.trans hc.symm))]
        omega
      · rw [if_neg hk, if_neg hk, ih]

theorem counterTotal_counterAdd (m : List (List Char × Int)) (k : List Char) (v : Int) :
    counterTotal (counterAdd m k v) = counterTotal m + v := by
  induction m with
  | nil => simp [counterAdd, counterTotal]
  | cons p rest ih =>
    obtain ⟨k0, v0⟩ := p
    by_cases h0 : k0 = k
    · simp [counterAdd, counterTotal, h0]
      omega
    · simp [counterAdd, counterTotal, h0] at ih ⊢
      omega

/-- The sum of the counts the record maps to its own taxon, repeated
pairs included: what the spec calls the own-taxon k-mer count. -/
def ownSum (pairs : List (List Char × Int)) (tid : List Char) : Int :=
  ((pairs.filter (fun p => p.1 = tid)).map Prod.snd).sum

/-- The total k-mer count across all mappings of the record. -/
def totalSum (pairs : List (List Char × Int)) : Int :=
  (pairs.map Prod.snd).sum

theorem ownSum_cons (p : List Char × Int) (pairs : List (List Char × Int))
    (tid : List Char) :
    ownSum (p :: pairs) tid = (if p.1 = tid then p.2 else 0) + ownSum pairs tid := by
  by_cases h : p.1 = tid <;> simp [ownSum, List.filter_cons, h]

theorem totalSum_cons (p : List Char × Int) (pairs : List (List Char × Int)) :
    totalSum (p :: pairs) = p.2 + totalSum pairs := by
  simp [totalSum]

theorem counterGet_foldl (pairs : List (List Char × Int)) :
    ∀ (m : List (List Char × Int)) (k : List Char),
      counterGet (pairs.foldl (fun m p => counterAdd m p.1 p.2) m) k =
        counterGet m k + ownSum pairs k := by
  induction pairs with
  | nil => intro m k; simp [ownSum]
  | cons p rest ih =>
    intro m k
    simp only [List.foldl_cons]
    rw [ih, counterGet_counterAdd, ownSum_cons]
    omega

theorem counterGet_mappingsOf (pairs : List (List Char × Int)) (k : List Char) :
    counterGet (mappingsOf pairs) k = ownSum pairs k := by
  unfold mappingsOf
  rw [counterGet_foldl]
  simp [counterGet]

theorem counterTotal_foldl (pairs : List (List Char × Int)) :
    ∀ (m : List (List Char × Int)),
      counterTotal (pairs.foldl (fun m p => counterAdd m p.1 p.2) m) =
        counterTotal m + totalSum pairs := by
  induction pairs with
  | nil => intro m; simp [totalSum]
  | cons p rest ih =>
    intro m
    simp only [List.foldl_cons]
    rw [ih, counterTotal_counterAdd, totalSum_cons]
    omega

theorem counterTotal_mappingsOf (pairs : List (List Char × Int)) :
    counterTotal (mappingsOf pairs) = totalSum pairs := by
  unfold mappingsOf
  rw [counterTotal_foldl]
  simp [counterTotal]

theorem ownSum_bounds (pairs : List (List Char × Int)) (tid : List Char)
    (h : ∀ p ∈ pairs, 0 ≤ p.2) :
    0 ≤ ownSum pairs tid ∧ ownSum pairs tid ≤ totalSum pairs := by
  induction pairs with
  | nil => simp [ownSum, totalSum]
  | cons p rest ih =>
    have hp : 0 ≤ p.2 := h p (by simp)
    have hrest : ∀ q ∈ rest, 0 ≤ q.2 := fun q hq => h q (by simp [hq])
    obtain ⟨ih1, ih2⟩ := ih hrest
    rw [ownSum_cons, totalSum_cons]
    by_cases hk : p.1 = tid
    · rw [if_pos hk]
      omega
    · rw [if_neg hk]
      omega

theorem ownSum_eq_zero (pairs : List (List Char × Int)) (tid : List Char)
    (h : ∀ p ∈ pairs, p.1 ≠ tid) : ownSum pairs tid = 0 := by
  induction pairs with
  | nil => simp [ownSum]
  | cons p rest ih =>
    have hp : p.1 ≠ tid := h p (by simp)
    have hrest : ∀ q ∈ rest, q.1 ≠ tid := fun q hq => h q (by simp [hq])
    rw [ownSum_cons, if_neg hp, ih hrest]
    omega

theorem filtSeqs_upsert (m : List (List Char × List ℚ)) (k : List Char) (v : ℚ) :
    ((upsert m k v).map (fun p => p.2.length)).sum =
      (m.map (fun p => p.2.length)).sum + 1 := by
  induction m with
  | nil => simp [upsert]
  | cons p rest ih =>
    by_cases hk : p.1 = k
    · simp [upsert, hk]
      omega
    · simp [upsert, hk, ih]
      omega

theorem scanState_eq_some {scoring : Scoring} {minscore : Option ℚ}
    {lines : List (List Char)} {s : RState}
    (h : scanState scoring minscore lines = some s) :
    scanLines scoring minscore initState lines = Except.ok s := by
  unfold scanState at h
  cases he : scanLines scoring minscore initState lines with
  | error e => rw [he] at h; exact Option.noConfusion h
  | ok s0 =>
    rw [he] at h
    rw [Option.some.inj h]

/-! ## The per-taxon accumulation invariant (claim C7) -/

/-- The three per-taxon dicts stay parallel: a taxon is a key of one iff
it is a key of all, and its three lists have equal lengths. -/
def AccInv (s : RState) : Prop :=
  ∀ k : List Char,
    (hasKey s.all_scores k = hasKey s.all_kmerel k ∧
     hasKey s.all_scores k = hasKey s.all_length k) ∧
    (lenOf s.all_scores k = lenOf s.all_kmerel k ∧
     lenOf s.all_scores k = lenOf s.all_length k)

theorem accInv_initState : AccInv initState := by
  intro k
  exact ⟨⟨rfl, rfl⟩, ⟨rfl, rfl⟩⟩

theorem accInv_step (scoring : Scoring) (minscore : Option ℚ) (s : RState)
    (raw : List Char) (s' : RState) (hinv : AccInv s)
    (h : step scoring minscore s raw = Except.ok s') : AccInv s' := by
  unfold step at h
  cases ho : lineOutcome raw with
  | errNoCount =>
    simp only [ho] at h
    rw [← Except.ok.inj h]
    exact hinv
  | errCounted len =>
    simp only [ho] at h
    rw [← Except.ok.inj h]
    exact hinv
  | uncl len =>
    simp only [ho] at h
    rw [← Except.ok.inj h]
    exact hinv
  | abortZeroDiv => simp only [ho] at h; exact Except.noConfusion h
  | abortIndex => simp only [ho] at h; exact Except.noConfusion h
  | clas len tid shel score =>
    simp only [ho] at h
    by_cases hkeep : keepRecord scoring minscore shel score = true
    · rw [if_pos hkeep] at h
      rw [← Except.ok.inj h]
      intro k
      obtain ⟨⟨hk1, hk2⟩, ⟨hl1, hl2⟩⟩ := hinv k
      by_cases hk : k = tid
      · subst hk
        refine ⟨⟨?_, ?_⟩, ⟨?_, ?_⟩⟩
        · rw [hasKey_upsert_self, hasKey_upsert_self]
        · rw [hasKey_upsert_self, hasKey_upsert_self]
        · rw [lenOf_upsert_self, lenOf_upsert_self, hl1]
        · rw [lenOf_upsert_self, lenOf_upsert_self, hl2]
      · refine ⟨⟨?_, ?_⟩, ⟨?_, ?_⟩⟩
        · rw [hasKey_upsert_ne _ _ _ _ hk, hasKey_upsert_ne _ _ _ _ hk, hk1]
        · rw [hasKey_upsert_ne _ _ _ _ hk, hasKey_upsert_ne _ _ _ _ hk, hk2]
        · rw [lenOf_upsert_ne _ _ _ _ hk, lenOf_upsert_ne _ _ _ _ hk, hl1]
        · rw [lenOf_upsert_ne _ _ _ _ hk, lenOf_upsert_ne _ _ _ _ hk, hl2]
    · rw [if_neg hkeep] at h
      rw [← Except.ok.inj h]
      exact hinv

theorem accInv_scan (scoring : Scoring) (minscore : Option ℚ) :
    ∀ (ls : List (List Char)) (s s' : RState), AccInv s →
      scanLines scoring minscore s ls = Except.ok s' → AccInv s' := by
  intro ls
  induction ls with
  | nil =>
    intro s s' hinv h
    rw [← Except.ok.inj h]
    exact hinv
  | cons l rest ih =>
    intro s s' hinv h
    unfold scanLines at h
    cases hstep : step scoring minscore s l with
    | error e => rw [hstep] at h; exact Except.noConfusion h
    | ok s1 =>
      rw [hstep] at h
      exact ih s1 s' (accInv_step scoring minscore s l s1 hinv hstep) h

/-- C7: at every point during and after the scan (i.e. after scanning any
list of data lines, which includes every prefix of any run), every taxon
id present in the per-taxon accumulation has score, relative-score and
length lists of equal lengths, and is a key of one dict iff of all three:
each retained record updates the three dicts atomically. -/
theorem C7_parallel_accumulation (scoring : Scoring) (minscore : Option ℚ)
    (lines : List (List Char)) (s : RState)
    (h : scanState scoring minscore lines = some s) : AccInv s :=
  accInv_scan scoring minscore lines initState s accInv_initState (scanState_eq_some h)

theorem C7_parallel_accumulation_witness :
    (scanState Scoring.SHEL none ["C\tr1\t9606\t100\t9606:31".data]).isSome = true ∧
    AccInv ((scanState Scoring.SHEL none ["C\tr1\t9606\t100\t9606:31".data]).getD initState) :=
  ⟨rfl, C7_parallel_accumulation Scoring.SHEL none _ _
    (opt_eq_some_getD _ initState rfl)⟩

/-! ## The truncated-file heuristic (claim C9) -/

theorem step_error_read_le (scoring : Scoring) (minscore : Option ℚ) (s : RState)
    (raw : List Char) (s' : RState)
    (hle : s.error_read ≤ (s.num_read : Int) + 1)
    (h : step scoring minscore s raw = Except.ok s') :
    s'.error_read ≤ (s'.num_read : Int) + 1 := by
  unfold step at h
  cases ho : lineOutcome raw <;> simp only [ho] at h
  case errNoCount =>
    rw [← Except.ok.inj h]
  case abortZeroDiv => exact Except.noConfusion h
  case abortIndex => exact Except.noConfusion h
  case errCounted len =>
    rw [← Except.ok.inj h]
    show (s.num_read : Int) + 2 ≤ ((s.num_read + 1 : Nat) : Int) + 1
    push_cast
    omega
  case uncl len =>
    rw [← Except.ok.inj h]
    show s.error_read ≤ ((s.num_read + 1 : Nat) : Int) + 1
    push_cast
    omega
  case clas len tid shel score =>
    by_cases hkeep : keepRecord scoring minscore shel score = true
    · rw [if_pos hkeep] at h
      rw [← Except.ok.inj h]
      show s.error_read ≤ ((s.num_read + 1 : Nat) : Int) + 1
      push_cast
      omega
    · rw [if_neg hkeep] at h
      rw [← Except.ok.inj h]
      show s.error_read ≤ ((s.num_read + 1 : Nat) : Int) + 1
      push_cast
      omega

theorem step_flag (scoring : Scoring) (minscore : Option ℚ) (s : RState)
    (raw : List Char) (s' : RState)
    (hle : s.error_read ≤ (s.num_read : Int) + 1)
    (h : step scoring minscore s raw = Except.ok s') :
    (isErrLine raw = true → s'.error_read = (s'.num_read : Int) + 1) ∧
    (isErrLine raw = false → s'.error_read ≠ (s'.num_read : Int) + 1) := by
  unfold step at h
  unfold isErrLine
  cases ho : lineOutcome raw <;> simp only [ho] at h ⊢
  case errNoCount =>
    refine ⟨fun _ => ?_, fun hc => Bool.noConfusion hc⟩
    rw [← Except.ok.inj h]
  case errCounted len =>
    refine ⟨fun _ => ?_, fun hc => Bool.noConfusion hc⟩
    rw [← Except.ok.inj h]
    show (s.num_read : Int) + 2 = ((s.num_read + 1 : Nat) : Int) + 1
    push_cast
    omega
  case uncl len =>
    refine ⟨fun hc => Bool.noConfusion hc, fun _ => ?_⟩
    rw [← Except.ok.inj h]
    show s.error_read ≠ ((s.num_read + 1 : Nat) : Int) + 1
    push_cast
    omega
  case abortZeroDiv => exact Except.noConfusion h
  case abortIndex => exact Except.noConfusion h
  case clas len tid shel score =>
    refine ⟨fun hc => Bool.noConfusion hc, fun _ => ?_⟩
    by_cases hkeep : keepRecord scoring minscore shel score = true
    · rw [if_pos hkeep] at h
      rw [← Except.ok.inj h]
      show s.error_read ≠ ((s.num_read + 1 : Nat) : Int) + 1
      push_cast
      omega
    · rw [if_neg hkeep] at h
      rw [← Except.ok.inj h]
      show s.error_read ≠ ((s.num_read + 1 : Nat) : Int) + 1
      push_cast
      omega

theorem scan_trunc_aux (scoring : Scoring) (minscore : Option ℚ) :
    ∀ (ls : List (List Char)) (s0 s : RState),
      s0.error_read ≤ (s0.num_read : Int) + 1 →
      scanLines scoring minscore s0 ls = Except.ok s →
      (s.error_read = (s.num_read : Int) + 1 ↔
        ((ls = [] ∧ s0.error_read = (s0.num_read : Int) + 1) ∨
         (∃ l, ls.getLast? = some l ∧ isErrLine l = true))) := by
  intro ls
  induction ls with
  | nil =>
    intro s0 s hle h
    rw [← Except.ok.inj h]
    constructor
    · intro hf
      exact Or.inl ⟨rfl, hf⟩
    · rintro (⟨_, hf⟩ | ⟨l, hl, _⟩)
      · exact hf
      · exact Option.noConfusion hl
  | cons l rest ih =>
    intro s0 s hle h
    unfold scanLines at h
    cases hstep : step scoring minscore s0 l with
    | error e => rw [hstep] at h; exact Except.noConfusion h
    | ok s1 =>
      rw [hstep] at h
      have hle1 := step_error_read_le scoring minscore s0 l s1 hle hstep
      have hiff := ih s1 s hle1 h
      have hfl := step_flag scoring minscore s0 l s1 hle hstep
      rw [hiff]
      cases hErr : isErrLine l with
      | true =>
        have hs1 := hfl.1 hErr
        cases rest with
        | nil =>
          simp [hs1, hErr]
        | cons r rs =>
          rw [List.getLast?_cons_cons]
          simp [hs1]
      | false =>
        have hs1 := hfl.2 hErr
        cases rest with
        | nil =>
          simp [hs1, hErr]
        | cons r rs =>
          rw [List.getLast?_cons_cons]
          simp [hs1]

/-- C9: after a completed scan, the truncated-file warning test
`error_read == num_read + 1` holds iff the very last processed data line
was one that errored (took a caught-`ValueError` skip path); an error on
an earlier line followed by any successfully counted line does not
trigger it. -/
theorem C9_truncated_warning (scoring : Scoring) (minscore : Option ℚ)
    (lines : List (List Char)) (s : RState)
    (h : scanState scoring minscore lines = some s) :
    truncatedFlag s = true ↔
      ∃ l, lines.getLast? = some l ∧ isErrLine l = true := by
  have h' := scanState_eq_some h
  have hini : initState.error_read ≤ (initState.num_read : Int) + 1 := by
    show (-1 : Int) ≤ (0 : Nat) + 1
    norm_num
  have haux := scan_trunc_aux scoring minscore lines initState s hini h'
  have hflag : truncatedFlag s = true ↔ s.error_read = (s.num_read : Int) + 1 := by
    unfold truncatedFlag
    exact beq_iff_eq
  rw [hflag, haux]
  have hinit : ¬ (initState.error_read = (initState.num_read : Int) + 1) := by
    show ¬ ((-1 : Int) = (0 : Nat) + 1)
    norm_num
  constructor
  · rintro (⟨_, hf⟩ | hex)
    · exact absurd hf hinit
    · exact hex
  · intro hex
    exact Or.inr hex

theorem C9_truncated_warning_witness :
    scanState Scoring.SHEL none ["xx".data] = some ⟨[], [], [], 0, 0, 0, 1⟩ ∧
    (truncatedFlag ⟨[], [], [], 0, 0, 0, 1⟩ = true ↔
      ∃ l, (["xx".data] : List (List Char)).getLast? = some l ∧ isErrLine l = true) :=
  ⟨by decide, C9_truncated_warning Scoring.SHEL none ["xx".data] ⟨[], [], [], 0, 0, 0, 1⟩
    (by decide)⟩

/-! ## The minimum-score filter (claim C3) -/

theorem keepRecord_mono (P : Scoring) (T T' : ℚ) (shel : Int) (score : ℚ)
    (hT : T ≤ T') (h : keepRecord P (some T') shel score = true) :
    keepRecord P (some T) shel score = true := by
  have h' : (if P = Scoring.KRAKEN then decide (T' ≤ score)
             else decide (T' ≤ (shel : ℚ))) = true := h
  show (if P = Scoring.KRAKEN then decide (T ≤ score)
        else decide (T ≤ (shel : ℚ))) = true
  by_cases hP : P = Scoring.KRAKEN
  · rw [if_pos hP] at h' ⊢
    rw [decide_eq_true_eq] at h'
    exact decide_eq_true (le_trans hT h')
  · rw [if_neg hP] at h' ⊢
    rw [decide_eq_true_eq] at h'
    exact decide_eq_true (le_trans hT h')

theorem keepRecord_iff (P : Scoring) (T : ℚ) (shel : Int) (score : ℚ) :
    keepRecord P (some T) shel score = true ↔
      (if P = Scoring.KRAKEN then T ≤ score else T ≤ (shel : ℚ)) := by
  show (if P = Scoring.KRAKEN then decide (T ≤ score)
        else decide (T ≤ (shel : ℚ))) = true ↔ _
  by_cases hP : P = Scoring.KRAKEN
  · rw [if_pos hP, if_pos hP, decide_eq_true_eq]
  · rw [if_neg hP, if_neg hP, decide_eq_true_eq]

theorem step_filtSeqs_clas (scoring : Scoring) (minscore : Option ℚ) (s : RState)
    (raw : List Char) (s' : RState) (len : Int) (tid : List Char) (shel : Int)
    (score : ℚ)
    (ho : lineOutcome raw = LineOutcome.clas len tid shel score)
    (h : step scoring minscore s raw = Except.ok s') :
    filtSeqs s' = (if keepRecord scoring minscore shel score = true
                   then filtSeqs s + 1 else filtSeqs s) := by
  unfold step at h
  simp only [ho] at h
  by_cases hkeep : keepRecord scoring minscore shel score = true
  · rw [if_pos hkeep] at h ⊢
    rw [← Except.ok.inj h]
    exact filtSeqs_upsert s.all_scores tid (shel : ℚ)
  · rw [if_neg hkeep] at h ⊢
    rw [← Except.ok.inj h]
    rfl

theorem step_couple (P : Scoring) (T T' : ℚ) (hT : T ≤ T') (a b a' b' : RState)
    (l : List Char)
    (ha : step P (some T) a l = Except.ok a')
    (hb : step P (some T') b l = Except.ok b')
    (hab : filtSeqs b ≤ filtSeqs a) :
    filtSeqs b' ≤ filtSeqs a' := by
  unfold step at ha hb
  cases ho : lineOutcome l <;> simp only [ho] at ha hb
  case errNoCount =>
    rw [← Except.ok.inj ha, ← Except.ok.inj hb]
    exact hab
  case errCounted len =>
    rw [← Except.ok.inj ha, ← Except.ok.inj hb]
    exact hab
  case uncl len =>
    rw [← Except.ok.inj ha, ← Except.ok.inj hb]
    exact hab
  case abortZeroDiv => exact Except.noConfusion ha
  case abortIndex => exact Except.noConfusion ha
  case clas len tid shel score =>
    by_cases hkb : keepRecord P (some T') shel score = true
    · have hka := keepRecord_mono P T T' shel score hT hkb
      rw [if_pos hkb] at hb
      rw [if_pos hka] at ha
      rw [← Except.ok.inj ha, ← Except.ok.inj hb]
      show ((upsert b.all_scores tid (shel : ℚ)).map (fun p => p.2.length)).sum ≤
        ((upsert a.all_scores tid (shel : ℚ)).map (fun p => p.2.length)).sum
      rw [filtSeqs_upsert, filtSeqs_upsert]
      exact Nat.add_le_add_right hab 1
    · rw [if_neg hkb] at hb
      rw [← Except.ok.inj hb]
      by_cases hka : keepRecord P (some T) shel score = true
      · rw [if_pos hka] at ha
        rw [← Except.ok.inj ha]
        show filtSeqs b ≤ ((upsert a.all_scores tid (shel : ℚ)).map (fun p => p.2.length)).sum
        rw [filtSeqs_upsert]
        exact le_trans hab (Nat.le_succ (filtSeqs a))
      · rw [if_neg hka] at ha
        rw [← Except.ok.inj ha]
        exact hab

theorem scan_filt_antitone (P : Scoring) (T T' : ℚ) (hT : T ≤ T') :
    ∀ (ls : List (List Char)) (a b sa sb : RState),
      filtSeqs b ≤ filtSeqs a →
      scanLines P (some T) a ls = Except.ok sa →
      scanLines P (some T') b ls = Except.ok sb →
      filtSeqs sb ≤ filtSeqs sa := by
  intro ls
  induction ls with
  | nil =>
    intro a b sa sb hab ha hb
    rw [← Except.ok.inj ha, ← Except.ok.inj hb]
    exact hab
  | cons l rest ih =>
    intro a b sa sb hab ha hb
    unfold scanLines at ha hb
    cases hsa : step P (some T) a l with
    | error e => rw [hsa] at ha; exact Except.noConfusion ha
    | ok a1 =>
      rw [hsa] at ha
      cases hsb : step P (some T') b l with
      | error e => rw [hsb] at hb; exact Except.noConfusion hb
      | ok b1 =>
        rw [hsb] at hb
        exact ih a1 b1 sa sb (step_couple P T T' hT a b a1 b1 l hsa hsb hab) ha hb

/-- C3: with a threshold `T` configured, a successfully derived record is
retained (adds one entry to the accumulation) iff the policy-relevant
metric — `score` under `KRAKEN`, `shel` under every other policy — is at
least `T`; and over any fixed input, the retained count under a larger
threshold never exceeds the one under a smaller threshold. -/
theorem C3_threshold_filter
    (P : Scoring) (T T' : ℚ) (lines : List (List Char)) (s1 s2 : RState)
    (st st' : RState) (raw : List Char) (len : Int) (tid : List Char)
    (shel : Int) (score : ℚ)
    (hT : T ≤ T')
    (h1 : scanState P (some T) lines = some s1)
    (h2 : scanState P (some T') lines = some s2)
    (hline : lineOutcome raw = LineOutcome.clas len tid shel score)
    (hstep : step P (some T) st raw = Except.ok st') :
    filtSeqs s2 ≤ filtSeqs s1 ∧
    filtSeqs st' = (if (if P = Scoring.KRAKEN then T ≤ score else T ≤ (shel : ℚ))
                    then filtSeqs st + 1 else filtSeqs st) := by
  constructor
  · exact scan_filt_antitone P T T' hT lines initState initState s1 s2 (le_refl _)
      (scanState_eq_some h1) (scanState_eq_some h2)
  · rw [step_filtSeqs_clas P (some T) st raw st' len tid shel score hline hstep]
    by_cases hk : keepRecord P (some T) shel score = true
    · rw [if_pos hk, if_pos ((keepRecord_iff P T shel score).mp hk)]
    · rw [if_neg hk, if_neg (fun hp => hk ((keepRecord_iff P T shel score).mpr hp))]

theorem C3_threshold_filter_witness :
    ((0:ℚ) ≤ 1) ∧
    scanState Scoring.SHEL (some 0) [] = some initState ∧
    lineOutcome "C\tr1\t9606\t100\t9606:31".data
      = LineOutcome.clas 100 "9606".data 66 (scoreOf [("9606".data, 31)] "9606".data) ∧
    (step Scoring.SHEL (some 0) initState "C\tr1\t9606\t100\t9606:31".data).isOk = true ∧
    (filtSeqs initState ≤ filtSeqs initState ∧
     filtSeqs ((step Scoring.SHEL (some 0) initState
         "C\tr1\t9606\t100\t9606:31".data).toOption.getD initState)
       = (if (if Scoring.SHEL = Scoring.KRAKEN
              then (0:ℚ) ≤ scoreOf [("9606".data, 31)] "9606".data
              else (0:ℚ) ≤ ((66:Int):ℚ))
          then filtSeqs initState + 1 else filtSeqs initState)) :=
  ⟨by decide, rfl, rfl, rfl,
   C3_threshold_filter Scoring.SHEL 0 1 [] initState initState initState
     ((step Scoring.SHEL (some 0) initState
         "C\tr1\t9606\t100\t9606:31".data).toOption.getD initState)
     "C\tr1\t9606\t100\t9606:31".data 100 "9606".data 66
     (scoreOf [("9606".data, 31)] "9606".data)
     (by decide) rfl rfl rfl
     (except_eq_ok_getD _ initState rfl)⟩

/-! ## The `NORMALIZED` score map (claim C8) -/

theorem normaEntry_ok_key (lengths : List (List Char × ℚ)) (p b : List Char × ℚ)
    (he : normaEntry lengths p = Except.ok b) : b.1 = p.1 := by
  unfold normaEntry at he
  cases hL : lookupA lengths p.1 with
  | none =>
    simp only [hL] at he
    exact Except.noConfusion he
  | some L =>
    simp only [hL] at he
    by_cases h0 : L = 0
    · rw [if_pos h0] at he
      exact Except.noConfusion he
    · rw [if_neg h0] at he
      rw [← Except.ok.inj he]

theorem normaEntry_ok_val (lengths : List (List Char × ℚ)) (p b : List Char × ℚ)
    (L : ℚ) (he : normaEntry lengths p = Except.ok b)
    (hL : lookupA lengths p.1 = some L) : b = (p.1, p.2 / L * 100) := by
  unfold normaEntry at he
  simp only [hL] at he
  by_cases h0 : L = 0
  · rw [if_pos h0] at he
    exact Except.noConfusion he
  · rw [if_neg h0] at he
    exact (Except.ok.inj he).symm

theorem norma_lookup (lengths : List (List Char × ℚ)) :
    ∀ (scores out : List (List Char × ℚ)) (tid : List Char) (v L : ℚ),
      normaMapM lengths scores = Except.ok out →
      lookupA scores tid = some v →
      lookupA lengths tid = some L →
      lookupA out tid = some (v / L * 100) := by
  intro scores
  induction scores with
  | nil =>
    intro out tid v L hm hv hL
    exact Option.noConfusion hv
  | cons p rest ih =>
    intro out tid v L hm hv hL
    unfold normaMapM at hm
    cases he : normaEntry lengths p with
    | error e => rw [he] at hm; exact Except.noConfusion hm
    | ok b =>
      rw [he] at hm
      cases hrest : normaMapM lengths rest with
      | error e => rw [hrest] at hm; exact Except.noConfusion hm
      | ok bs =>
        rw [hrest] at hm
        rw [← Except.ok.inj hm]
        have hkey := normaEntry_ok_key lengths p b he
        by_cases hk : p.1 = tid
        · have hv' : v = p.2 := by
            unfold lookupA at hv
            rw [if_pos hk] at hv
            exact (Option.some.inj hv).symm
          have hL' : lookupA lengths p.1 = some L := by rw [hk]; exact hL
          have hb := normaEntry_ok_val lengths p b L he hL'
          unfold lookupA
          rw [hb]
          rw [if_pos hk, hv']
        · have hv' : lookupA rest tid = some v := by
            unfold lookupA at hv
            rw [if_neg hk] at hv
            exact hv
          unfold lookupA
          rw [if_neg (hkey ▸ hk)]
          exact ih bs tid v L hrest hv' hL

/-- C8: under the `NORMALIZED` (`NORMA`) policy, the score-map entry of
every taxon with at least one retained record (a key of `all_scores`)
equals (mean of its shel list ÷ mean of its length list) × 100, exactly
over the rationals. -/
theorem C8_norma_score (s : RState) (out : List (List Char × ℚ)) (tid : List Char)
    (sl : List ℚ) (ll : List Int)
    (hout : outScoresNorma s = Except.ok out)
    (hs : lookupA s.all_scores tid = some sl)
    (hl : lookupA s.all_length tid = some ll) :
    lookupA out tid = some (meanQ sl / meanQ (ll.map (fun n => (n : ℚ))) * 100) := by
  unfold outScoresNorma at hout
  refine norma_lookup _ _ out tid (meanQ sl)
    (meanQ (ll.map (fun n => (n : ℚ)))) hout ?_ ?_
  · have hm := lookupA_map_val s.all_scores (fun l => meanQ l) tid
    rw [hs] at hm
    exact hm
  · have hm := lookupA_map_val s.all_length
      (fun l => meanQ (l.map (fun n => (n : ℚ)))) tid
    rw [hl] at hm
    exact hm

theorem C8_norma_score_witness :
    outScoresNorma ⟨[("9606".data, [66])], [("9606".data, [100])],
        [("9606".data, [100])], 1, 100, 0, -1⟩
      = Except.ok [("9606".data,
          meanQ [(66 : ℚ)] / meanQ (([100] : List Int).map (fun n => (n : ℚ))) * 100)] ∧
    lookupA [("9606".data,
          meanQ [(66 : ℚ)] / meanQ (([100] : List Int).map (fun n => (n : ℚ))) * 100)]
        "9606".data
      = some (meanQ [(66 : ℚ)] / meanQ (([100] : List Int).map (fun n => (n : ℚ))) * 100) := by
  have hne : meanQ (([100] : List Int).map (fun n => (n : ℚ))) ≠ 0 := by
    norm_num [meanQ]
  have he : normaEntry [("9606".data, meanQ (([100] : List Int).map (fun n => (n : ℚ))))]
      ("9606".data, meanQ [(66 : ℚ)])
      = Except.ok ("9606".data,
          meanQ [(66 : ℚ)] / meanQ (([100] : List Int).map (fun n => (n : ℚ))) * 100) := by
    unfold normaEntry
    have hlook : lookupA
        [("9606".data, meanQ (([100] : List Int).map (fun n => (n : ℚ))))] "9606".data
        = some (meanQ (([100] : List Int).map (fun n => (n : ℚ)))) := rfl
    simp only [hlook]
    rw [if_neg hne]
  have hout : outScoresNorma ⟨[("9606".data, [66])], [("9606".data, [100])],
      [("9606".data, [100])], 1, 100, 0, -1⟩
      = Except.ok [("9606".data,
          meanQ [(66 : ℚ)] / meanQ (([100] : List Int).map (fun n => (n : ℚ))) * 100)] := by
    show normaMapM [("9606".data, meanQ (([100] : List Int).map (fun n => (n : ℚ))))]
        [("9606".data, meanQ [(66 : ℚ)])] = _
    unfold normaMapM
    simp only [he]
    rfl
  exact ⟨hout, C8_norma_score _ _ "9606".data [(66 : ℚ)] [100] hout rfl rfl⟩

/-! ## shel and relativeScore (claims C4, C10) -/

/-- C4 counterexample: the source accepts negative mapping counts
(`int()` parses them), and then the relative score can leave `[0, 100]`:
the record `C\tr1\t9606\t100\t9606:5 1:-4` has total k-mer count 1,
is processed as classified, and gets relativeScore 500. -/
theorem C4_relative_score_counterexample :
    parseMapsPairs ((pySplitWs "9606:5 1:-4".data).erase SEP_TOKEN)
      = Except.ok [("9606".data, 5), ("1".data, -4)] ∧
    counterTotal (mappingsOf [("9606".data, 5), ("1".data, -4)]) = 1 ∧
    lineOutcome "C\tr1\t9606\t100\t9606:5 1:-4".data
      = LineOutcome.clas 100 "9606".data 40 500 ∧
    ¬ ((500 : ℚ) ≤ 100) := by
  refine ⟨by decide, by decide, ?_, by decide⟩
  have h : lineOutcome "C\tr1\t9606\t100\t9606:5 1:-4".data
      = LineOutcome.clas 100 "9606".data 40
          (scoreOf [("9606".data, 5), ("1".data, -4)] "9606".data) := rfl
  have h2 : scoreOf [("9606".data, 5), ("1".data, -4)] "9606".data = 500 := by
    have h3 : scoreOf [("9606".data, 5), ("1".data, -4)] "9606".data
        = ((5 : Int) : ℚ) / ((1 : Int) : ℚ) * 100 := rfl
    rw [h3]
    norm_num
  rw [h, h2]

/-- C4 (amended): for a record with nonzero total k-mer count, shel is
the own-taxon k-mer count (repeated pairs summed) plus the fixed k-mer
size, and relativeScore is that count over the total times 100; the
`[0, 100]` bound additionally needs every mapping count nonnegative
(genuine classifier output), since `int()` accepts negative counts. -/
theorem C4_shel_relative_score (pairs : List (List Char × Int)) (tid : List Char)
    (h : counterTotal (mappingsOf pairs) ≠ 0) :
    shelOf pairs tid = ownSum pairs tid + K_MER_SIZE ∧
    scoreOf pairs tid = (ownSum pairs tid : ℚ) / (totalSum pairs : ℚ) * 100 ∧
    ((∀ p ∈ pairs, 0 ≤ p.2) →
      0 ≤ scoreOf pairs tid ∧ scoreOf pairs tid ≤ 100) := by
  have hget := counterGet_mappingsOf pairs tid
  have htot := counterTotal_mappingsOf pairs
  refine ⟨?_, ?_, ?_⟩
  · unfold shelOf
    rw [hget]
  · unfold scoreOf
    rw [hget, htot]
  · intro hnn
    obtain ⟨h0, hle⟩ := ownSum_bounds pairs tid hnn
    have htotne : totalSum pairs ≠ 0 := by
      rw [← htot]
      exact h
    have htotpos : 0 < totalSum pairs := lt_of_le_of_ne (le_trans h0 hle) (Ne.symm htotne)
    unfold scoreOf
    rw [hget, htot]
    constructor
    · apply mul_nonneg
      · apply div_nonneg
        · exact_mod_cast h0
        · exact_mod_cast le_of_lt htotpos
      · norm_num
    · have hdiv : (ownSum pairs tid : ℚ) / (totalSum pairs : ℚ) ≤ 1 := by
        rw [div_le_one (by exact_mod_cast htotpos)]
        exact_mod_cast hle
      calc (ownSum pairs tid : ℚ) / (totalSum pairs : ℚ) * 100
          ≤ 1 * 100 := by
            apply mul_le_mul_of_nonneg_right hdiv
            norm_num
        _ = 100 := one_mul 100

theorem C4_shel_relative_score_witness :
    (counterTotal (mappingsOf [("9606".data, 31)]) ≠ 0) ∧
    (shelOf [("9606".data, 31)] "9606".data
        = ownSum [("9606".data, 31)] "9606".data + K_MER_SIZE ∧
      scoreOf [("9606".data, 31)] "9606".data
        = (ownSum [("9606".data, 31)] "9606".data : ℚ)
            / (totalSum [("9606".data, 31)] : ℚ) * 100 ∧
      ((∀ p ∈ ([("9606".data, 31)] : List (List Char × Int)), 0 ≤ p.2) →
        0 ≤ scoreOf [("9606".data, 31)] "9606".data ∧
          scoreOf [("9606".data, 31)] "9606".data ≤ 100)) :=
  ⟨by decide, C4_shel_relative_score [("9606".data, 31)] "9606".data (by decide)⟩

/-! ## Header check (claim C5) -/

/-- C5: whenever the header line does not split into exactly 5
tab-separated fields, the reader fails with the format-mismatch error,
whatever the data lines are — so before any data line is read, and
through an error distinct from the per-line skip path. -/
theorem C5_header_mismatch (lines : List String) (scoring : Scoring) (minscore : Option ℚ)
    (h : (headerFields lines).length ≠ 5) :
    read_generic_output lines scoring minscore = Except.error ReadErr.badHeader := by
  unfold read_generic_output
  rw [if_pos h]

theorem C5_header_mismatch_witness :
    ((headerFields ["C\tlabel\ttaxid\tlength", "C\tr1\t9606\t100\t9606:0"]).length ≠ 5) ∧
    read_generic_output ["C\tlabel\ttaxid\tlength", "C\tr1\t9606\t100\t9606:0"]
        Scoring.SHEL none = Except.error ReadErr.badHeader :=
  ⟨by decide, C5_header_mismatch ["C\tlabel\ttaxid\tlength", "C\tr1\t9606\t100\t9606:0"]
    Scoring.SHEL none (by decide)⟩

/-! ## Empty-result errors (claim C6) -/

/-- C6: after the scan completes, the reader raises (rather than
returning a result) whenever zero reads were counted, and whenever reads
were counted but none passed classification and filtering. -/
theorem C6_empty_results (lines : List String) (scoring : Scoring) (minscore : Option ℚ)
    (s : RState) (h : scanOf lines scoring minscore = some s) :
    (s.num_read = 0 →
      read_generic_output lines scoring minscore = Except.error ReadErr.noReads) ∧
    (s.num_read ≠ 0 → filtSeqs s = 0 →
      read_generic_output lines scoring minscore = Except.error ReadErr.noPassed) := by
  unfold scanOf at h
  by_cases hh : (headerFields lines).length = 5
  · rw [if_pos hh] at h
    have hscan := scanState_eq_some h
    unfold read_generic_output
    rw [if_neg (fun hc => hc hh)]
    simp only [hscan]
    constructor
    · intro h0
      rw [if_pos h0]
    · intro h0 hf
      rw [if_neg h0, if_pos hf]
  · rw [if_neg hh] at h
    exact Option.noConfusion h

theorem C6_empty_results_witness :
    scanOf ["C\tlabel\ttaxid\tlength\tmaps", "U\tr1\t0\t100\t0:50"] Scoring.SHEL none
      = some ⟨[], [], [], 1, 100, 1, -1⟩ ∧
    (⟨[], [], [], 1, 100, 1, -1⟩ : RState).num_read = 1 ∧
    (⟨[], [], [], 1, 100, 1, -1⟩ : RState).num_uncl = 1 ∧
    filtSeqs ⟨[], [], [], 1, 100, 1, -1⟩ = 0 ∧
    read_generic_output ["C\tlabel\ttaxid\tlength\tmaps", "U\tr1\t0\t100\t0:50"]
        Scoring.SHEL none = Except.error ReadErr.noPassed :=
  ⟨by decide, by decide, by decide, by decide,
   (C6_empty_results ["C\tlabel\ttaxid\tlength\tmaps", "U\tr1\t0\t100\t0:50"]
       Scoring.SHEL none ⟨[], [], [], 1, 100, 1, -1⟩ (by decide)).2
     (by decide) (by decide)⟩

/-- C10: a classified record whose own taxon id occurs in none of its
mapping pairs, but whose total k-mer count is nonzero, is not an error:
it is derived with shel equal to the fixed k-mer-size constant and
relativeScore 0, and (with no threshold configured to drop it) one entry
is appended under its own taxon id to all three per-taxon lists. -/
theorem C10_unmapped_taxon
    (cls tidS lenS mapsS : List Char) (len : Int) (pairs : List (List Char × Int))
    (st st' : RState) (raw : List Char) (scoring : Scoring)
    (hcls : cls ≠ UNCLASSIFIED)
    (hlen : parseLength lenS = some len)
    (hmaps : parseMapsPairs ((pySplitWs mapsS).erase SEP_TOKEN) = Except.ok pairs)
    (htid : ∀ p ∈ pairs, p.1 ≠ tidS)
    (htot : counterTotal (mappingsOf pairs) ≠ 0)
    (hline : lineOutcome raw
      = LineOutcome.clas len tidS (shelOf pairs tidS) (scoreOf pairs tidS))
    (hstep : step scoring none st raw = Except.ok st') :
    classifyFields cls tidS lenS mapsS
        = LineOutcome.clas len tidS (shelOf pairs tidS) (scoreOf pairs tidS) ∧
    shelOf pairs tidS = K_MER_SIZE ∧
    scoreOf pairs tidS = 0 ∧
    lenOf st'.all_scores tidS = lenOf st.all_scores tidS + 1 ∧
    lenOf st'.all_kmerel tidS = lenOf st.all_kmerel tidS + 1 ∧
    lenOf st'.all_length tidS = lenOf st.all_length tidS + 1 := by
  have hown : counterGet (mappingsOf pairs) tidS = 0 := by
    rw [counterGet_mappingsOf]
    exact ownSum_eq_zero pairs tidS htid
  unfold step at hstep
  simp only [hline] at hstep
  rw [if_pos (show keepRecord scoring none (shelOf pairs tidS) (scoreOf pairs tidS) = true
    from rfl)] at hstep
  have hst := (Except.ok.inj hstep).symm
  subst hst
  refine ⟨?_, ?_, ?_, ?_, ?_, ?_⟩
  · unfold classifyFields
    simp only [hlen]
    rw [if_neg hcls]
    simp only [hmaps]
    rw [if_neg htot]
  · unfold shelOf
    rw [hown]
    exact zero_add K_MER_SIZE
  · unfold scoreOf
    rw [hown]
    simp
  · exact lenOf_upsert_self st.all_scores tidS _
  · exact lenOf_upsert_self st.all_kmerel tidS _
  · exact lenOf_upsert_self st.all_length tidS _

theorem C10_unmapped_taxon_witness :
    ("C".data ≠ UNCLASSIFIED) ∧
    parseLength "100".data = some 100 ∧
    parseMapsPairs ((pySplitWs "1:5".data).erase SEP_TOKEN)
      = Except.ok [("1".data, 5)] ∧
    (∀ p ∈ ([("1".data, 5)] : List (List Char × Int)), p.1 ≠ "9606".data) ∧
    counterTotal (mappingsOf [("1".data, 5)]) ≠ 0 ∧
    lineOutcome "C\tr1\t9606\t100\t1:5".data
      = LineOutcome.clas 100 "9606".data (shelOf [("1".data, 5)] "9606".data)
          (scoreOf [("1".data, 5)] "9606".data) ∧
    (classifyFields "C".data "9606".data "100".data "1:5".data
        = LineOutcome.clas 100 "9606".data (shelOf [("1".data, 5)] "9606".data)
            (scoreOf [("1".data, 5)] "9606".data) ∧
      shelOf [("1".data, 5)] "9606".data = K_MER_SIZE ∧
      scoreOf [("1".data, 5)] "9606".data = 0 ∧
      lenOf ((step Scoring.SHEL none initState
          "C\tr1\t9606\t100\t1:5".data).toOption.getD initState).all_scores "9606".data
        = lenOf initState.all_scores "9606".data + 1 ∧
      lenOf ((step Scoring.SHEL none initState
          "C\tr1\t9606\t100\t1:5".data).toOption.getD initState).all_kmerel "9606".data
        = lenOf initState.all_kmerel "9606".data + 1 ∧
      lenOf ((step Scoring.SHEL none initState
          "C\tr1\t9606\t100\t1:5".data).toOption.getD initState).all_length "9606".data
        = lenOf initState.all_length "9606".data + 1) :=
  ⟨by decide, by decide, by decide, by decide, by decide, rfl,
   C10_unmapped_taxon "C".data "9606".data "100".data "1:5".data 100 [("1".data, 5)]
     initState
     ((step Scoring.SHEL none initState "C\tr1\t9606\t100\t1:5".data).toOption.getD
       initState)
     "C\tr1\t9606\t100\t1:5".data Scoring.SHEL
     (by decide) (by decide) (by decide) (by decide) (by decide) rfl
     (except_eq_ok_getD _ initState rfl)⟩

/-! ## Format-descriptor construction (claim C1) -/

/-- C1 (code bug): a specifier whose `TYP` value names no known subtype
does not make construction fail — the source prints the error message but
omits the re-raise every sibling field has, so a descriptor with the
`typ` attribute never assigned is produced; a missing `TYP` key, by
contrast, does raise. -/
theorem C1_unknown_typ_incomplete_descriptor :
    GenericFormat.init "TYP:XXX,TID:1,LEN:2,SCO:3,UNC:U"
      = Except.ok ⟨none, 1, 2, 3, "U".data⟩ ∧
    GenericFormat.init "TID:1,LEN:2,SCO:3,UNC:U" = Except.error GFError.missingTYP ∧
    GenericFormat.init "TYP:TSV,TID:1,LEN:2,SCO:3,UNC:U"
      = Except.ok ⟨some GenericType.TSV, 1, 2, 3, "U".data⟩ := by
  refine ⟨by decide, by decide, by decide⟩

/-! ## Zero-total k-mer records (claim C2) -/

/-- C2 (code bug): a data line with the wrong field count is skipped
non-fatally and the scan continues (second conjunct), but a classified
record whose k-mer counts sum to zero raises an uncaught
`ZeroDivisionError` that aborts the whole scan (first conjunct), contrary
to the skip-and-continue contract. -/
theorem C2_zero_total_aborts_scan :
    read_generic_output ["C\tlabel\ttaxid\tlength\tmaps", "C\tr1\t9606\t100\t9606:0"]
        Scoring.SHEL none
      = Except.error (ReadErr.aborted Abort.zeroDivision) ∧
    scanLines Scoring.SHEL none initState
        ["C\tr1\t9606".data, "U\tr2\t0\t50\t0:1".data]
      = Except.ok ⟨[], [], [], 1, 50, 1, 1⟩ := by
  refine ⟨by decide, by decide⟩

end Recentrifuge
